import Mathlib

/-!
Shallow embedding of the `nslookup` package (iterative DNS resolver).
Go strings are modelled as `List Char`, bytes as `Nat`, and the network
is abstracted by oracle parameters (per-hop outcomes, dial outcomes).
-/

namespace Nslookup

/-- Go strings are modelled as lists of characters. -/
abbrev Str := List Char

/-- `strings.HasSuffix(s, suffix)`: length test plus equality of the tail. -/
def hasSuffix (s suf : Str) : Bool :=
  decide (suf.length ≤ s.length) && (s.drop (s.length - suf.length) == suf)

/-- `strings.TrimSuffix(s, suffix)`: remove one trailing occurrence when present. -/
def trimSuffix (s suf : Str) : Str :=
  if hasSuffix s suf then s.take (s.length - suf.length) else s

/-- DNS record types used by the package (`dnsmessage.Type*`). -/
inductive RType where
  | A | NS | SOA | TXT | CNAME | MX
deriving DecidableEq

/-- Resource record body: the tagged union behind `answer.Body` type switches.
`other` stands for any body kind the code does not inspect. -/
inductive RBody where
  | A (b0 b1 b2 b3 : Nat)
  | NS (ns : Str)
  | SOA (ns : Str)
  | TXT (txt : List Str)
  | CNAME (cname : Str)
  | MX (mx : Str) (pref : Nat)
  | other
deriving DecidableEq

/-- Error outcomes of the package: `ErrNotFound`, `ErrMaxDepth`, and the
propagated dial / exchange / unpack / name-construction failures. -/
inductive Err where
  | notFound
  | maxDepth
  | dialFail (msg : Str)
  | exchFail (msg : Str)
  | unpackFail (msg : Str)
deriving DecidableEq

instance exceptDecEq {ε α : Type} [DecidableEq ε] [DecidableEq α] :
    DecidableEq (Except ε α) := fun a b =>
  match a, b with
  | .error e, .error f =>
    if h : e = f then .isTrue (by rw [h])
    else .isFalse (by intro hc; injection hc; exact h (by assumption))
  | .error _, .ok _ => .isFalse (by intro hc; exact Except.noConfusion hc)
  | .ok _, .error _ => .isFalse (by intro hc; exact Except.noConfusion hc)
  | .ok x, .ok y =>
    if h : x = y then .isTrue (by rw [h])
    else .isFalse (by intro hc; injection hc; exact h (by assumption))

/-- Outcome of one iteration of the referral loop as seen from
`lookupResourceListL1`: either one of the three fallible steps fails, or a
reply message is decoded with its answer and authority sections. -/
inductive HopOutcome where
  | dialFail (msg : Str)
  | exchFail (msg : Str)
  | unpackFail (msg : Str)
  | reply (answers authorities : List RBody)

/-- The `":53"` literal appended to referral hostnames. -/
def nsPort : Str := [':', '5', '3']

/-- The scan of a reply's authority section in `lookupResourceListL1`
(lines 200-206): collect `TrimSuffix(ns.String(), ".") + ":53"` for each
NS-typed record, in order. -/
def extractNS (authorities : List RBody) : List Str :=
  authorities.filterMap fun one =>
    match one with
    | .NS ns => some (trimSuffix ns ['.'] ++ nsPort)
    | _ => none

/-- The referral loop of `lookupResourceListL1` (lines 177-211), instrumented:
the first component records, in order, each `(depth, serverList)` pair at
which the loop reaches the `gDialRemote(serverList)` call; the second is the
loop's result. `hop depth` abstracts the network outcome of iteration
`depth` (dial, exchange and unpack composed). -/
def referralRun (hop : Nat → HopOutcome) (depth : Nat) (serverList : List Str) :
    List (Nat × List Str) × Except Err (List RBody) :=
  if depth > 10 then ([], .error .maxDepth)
  else
    match hop depth with
    | .dialFail m => ([(depth, serverList)], .error (.dialFail m))
    | .exchFail m => ([(depth, serverList)], .error (.exchFail m))
    | .unpackFail m => ([(depth, serverList)], .error (.unpackFail m))
    | .reply answers authorities =>
      if answers.length > 0 then ([(depth, serverList)], .ok answers)
      else
        let nsList := extractNS authorities
        if nsList = [] then ([(depth, serverList)], .error .notFound)
        else
          let rest := referralRun hop (depth + 1) nsList
          ((depth, serverList) :: rest.1, rest.2)
termination_by 11 - depth
decreasing_by omega

/-- The hard-coded 13 root server endpoints (`gRootServers`). -/
def gRootServers : List Str :=
  [("198.41.0.4:53").toList,
   ("192.228.79.201:53").toList,
   ("192.33.4.12:53").toList,
   ("128.8.10.90:53").toList,
   ("192.203.230.10:53").toList,
   ("192.5.5.241:53").toList,
   ("192.112.36.4:53").toList,
   ("128.63.2.53:53").toList,
   ("192.36.148.17:53").toList,
   ("192.58.128.30:53").toList,
   ("193.0.14.129:53").toList,
   ("199.7.83.42:53").toList,
   ("202.12.27.33:53").toList]

/-- Domain normalization at the top of `lookupResourceListL1` (lines 143-145):
append a dot unless the name already ends in one. -/
def normalizeDomain (domain : Str) : Str :=
  if !(hasSuffix domain ['.']) then domain ++ ['.'] else domain

/-- The query message built in `lookupResourceListL1` (lines 150-171): the
fields that vary between calls.  The remaining header fields are the
constants of the source (`Response=false`, `OpCode=0`, flags false,
`RCode=0`, `Class=INET`), identical for every query. -/
structure QueryMsg where
  id : Nat
  name : Str
  qtype : RType
deriving DecidableEq

/-- Build the query message for a domain, record type and transaction id. -/
def buildQuery (domain : Str) (typeC : RType) (id : Nat) : QueryMsg :=
  { id := id, name := normalizeDomain domain, qtype := typeC }

/-- `gLookupId`'s initial value (zero-valued package-level `uint32`). -/
def gLookupIdInit : Nat := 0

/-- `atomic.AddUint32(&gLookupId, 1)`: increment modulo `2^32`, returning
the new value. -/
def atomicAddUint32 (s : Nat) : Nat := (s + 1) % 2 ^ 32

/-- `uint16(x)`: truncation to the low 16 bits. -/
def uint16Of (n : Nat) : Nat := n % 2 ^ 16

/-- Counter value returned by the `AddUint32` of the `k`-th query
(1-indexed) of the process. -/
def counterAfter : Nat → Nat
  | 0 => gLookupIdInit
  | k + 1 => atomicAddUint32 (counterAfter k)

/-- The message identifier carried by the `k`-th query of the process. -/
def queryIdOf (k : Nat) : Nat := uint16Of (counterAfter k)

/-- `binary.BigEndian.PutUint16` of a value below `2^16`: high byte then
low byte. -/
def putUint16BE (v : Nat) : List Nat := [v / 256 % 256, v % 256]

/-- `binary.BigEndian.Uint16` of two bytes. -/
def readUint16BE (b0 b1 : Nat) : Nat := b0 * 256 + b1

/-- The write half of `exchangePacket` (lines 253-257): the single send of
the 2-byte big-endian length prefix followed by the payload.  `none` models
the slice-bound panic `temp[:2+len(send)]` when the payload exceeds the
`2+math.MaxUint16`-byte buffer. -/
def framePacket (send : List Nat) : Option (List Nat) :=
  if send.length ≤ 65535 then
    some (putUint16BE (uint16Of send.length) ++ send)
  else none

/-- The read half of `exchangePacket` (lines 261-270): `io.ReadFull` of 2
bytes giving the reply length `n`, then `io.ReadFull` of `n` bytes.
`stream` is the byte sequence available on the connection; a short read
(fewer bytes available than demanded) is a failure. -/
def readFramed (stream : List Nat) : Option (List Nat) :=
  match stream with
  | b0 :: b1 :: rest =>
    let n := readUint16BE b0 b1
    if n ≤ rest.length then some (rest.take n) else none
  | _ => none

/-- Connection handles are abstract tokens. -/
abbrev Conn := Nat

/-- Completion of one dial goroutine in `gDialRemote`: either the dial
error it records, or the connection it obtained. -/
inductive DialOutcome where
  | fail (err : Str)
  | ok (conn : Conn)

/-- Result of one `gDialRemote` call, instrumented with the number of
concurrent dial tasks spawned. -/
structure DialRun where
  spawned : Nat
  result : Except Str Conn

/-- The error message returned for an empty candidate list (line 216). -/
def dialEmptyErrMsg : Str := ("LookupContext.DialRemote targetAddrList is nil").toList

/-- The critical section of one dial goroutine (lines 229-241), applied in
completion order: a failure appends its error to `errList`; a success
installs its connection in the winner slot when the slot is empty, and is
closed and discarded otherwise. -/
def dialStep (acc : Option Conn × List Str) (o : DialOutcome) : Option Conn × List Str :=
  match o with
  | .fail e => (acc.1, acc.2 ++ [e])
  | .ok c =>
    match acc.1 with
    | some c0 => (some c0, acc.2)
    | none => (some c, acc.2)

/-- The dial errors recorded in `errList`, in recording order. -/
def dialErrors (completed : List DialOutcome) : List Str :=
  completed.filterMap fun o =>
    match o with
    | .fail m => some m
    | .ok _ => none

/-- `gDialRemote` (lines 214-250): an empty candidate list fails at once,
before any goroutine is spawned; otherwise one goroutine per address runs,
`completed` lists their outcomes in the order the critical sections run,
and after `wg.Wait()` the winner (or `errList[0]`) is returned.  `headD`
stands for the `errList[0]` index, reached only with a non-empty error
list (every spawned goroutine records exactly one outcome). -/
def gDialRemote (targetAddrList : List Str) (completed : List DialOutcome) : DialRun :=
  if targetAddrList.length = 0 then
    { spawned := 0, result := .error dialEmptyErrMsg }
  else
    let final := completed.foldl dialStep (none, [])
    { spawned := targetAddrList.length
      result :=
        match final.1 with
        | some c => .ok c
        | none => .error (final.2.headD []) }

/-- Decimal rendering of a natural number. -/
def natToStr (n : Nat) : Str := Nat.toDigits 10 n

/-- `net.IPv4(a,b,c,d).String()`: dotted-decimal rendering of the four
address bytes. -/
def ipv4String (b0 b1 b2 b3 : Nat) : Str :=
  natToStr (b0 % 256) ++ ['.'] ++ natToStr (b1 % 256) ++ ['.']
    ++ natToStr (b2 % 256) ++ ['.'] ++ natToStr (b3 % 256)

/-- The projection loop of `LookupA` (lines 26-32): one dotted-decimal
string per `AResource`-typed answer. -/
def projA (answerList : List RBody) : List Str :=
  answerList.filterMap fun answer =>
    match answer with
    | .A b0 b1 b2 b3 => some (ipv4String b0 b1 b2 b3)
    | _ => none

/-- The projection loop of `LookupSOA` (lines 44-50). -/
def projSOA (answerList : List RBody) : List Str :=
  answerList.filterMap fun answer =>
    match answer with
    | .SOA ns => some (trimSuffix ns ['.'])
    | _ => none

/-- The projection loop of `LookupNS` (lines 62-68). -/
def projNS (answerList : List RBody) : List Str :=
  answerList.filterMap fun answer =>
    match answer with
    | .NS ns => some (trimSuffix ns ['.'])
    | _ => none

/-- The projection loop of `LookupTXT` (lines 80-86): all text segments of
all TXT-typed answers, flattened in order. -/
def projTXT (answerList : List RBody) : List Str :=
  (answerList.filterMap fun answer =>
    match answer with
    | .TXT txt => some txt
    | _ => none).flatten

/-- `LookupA` given the outcome of its `lookupResourceListL1` call. -/
def LookupA (res : Except Err (List RBody)) : Except Err (List Str) :=
  match res with
  | .error e => .error e
  | .ok answerList =>
    let aResourceList := projA answerList
    if aResourceList.length = 0 then .error .notFound else .ok aResourceList

/-- `LookupSOA` given the outcome of its `lookupResourceListL1` call. -/
def LookupSOA (res : Except Err (List RBody)) : Except Err (List Str) :=
  match res with
  | .error e => .error e
  | .ok answerList =>
    let soaResourceList := projSOA answerList
    if soaResourceList.length = 0 then .error .notFound else .ok soaResourceList

/-- `LookupNS` given the outcome of its `lookupResourceListL1` call. -/
def LookupNS (res : Except Err (List RBody)) : Except Err (List Str) :=
  match res with
  | .error e => .error e
  | .ok answerList =>
    let nsResourceList := projNS answerList
    if nsResourceList.length = 0 then .error .notFound else .ok nsResourceList

/-- `LookupTXT` given the outcome of its `lookupResourceListL1` call. -/
def LookupTXT (res : Except Err (List RBody)) : Except Err (List Str) :=
  match res with
  | .error e => .error e
  | .ok answerList =>
    let txtResourceList := projTXT answerList
    if txtResourceList.length = 0 then .error .notFound else .ok txtResourceList

/-- The scan loop of `LookupCNAME` (lines 98-107): `cname` is overwritten
by each CNAME-typed answer and the loop breaks at the first non-empty one,
so the final value is the first non-empty canonical name, or empty. -/
def firstNonEmptyCNAME : List RBody → Str
  | [] => []
  | answer :: rest =>
    match answer with
    | .CNAME c => if c ≠ [] then c else firstNonEmptyCNAME rest
    | _ => firstNonEmptyCNAME rest

/-- `LookupCNAME` given the outcome of its `lookupResourceListL1` call.
No `TrimSuffix` is applied to the canonical name. -/
def LookupCNAME (res : Except Err (List RBody)) : Except Err Str :=
  match res with
  | .error e => .error e
  | .ok answerList =>
    let cname := firstNonEmptyCNAME answerList
    if cname = [] then .error .notFound else .ok cname

/-- The record type `LookupCNAME` passes to `lookupResourceListL1`
(line 94 of the source: `dnsmessage.TypeTXT`). -/
def lookupCNAMEQueryType : RType := .TXT

/-- `net.MX` as used by `LookupMX`. -/
structure MX where
  host : Str
  pref : Nat
deriving DecidableEq

/-- Go string `<`: bytewise lexicographic strict order. -/
def strLt : Str → Str → Bool
  | _, [] => false
  | [], _ :: _ => true
  | a :: as, b :: bs => a < b || (a == b && strLt as bs)

/-- The `less` closure passed to `sort.Slice` in `LookupMX` (lines
132-138): higher preference first, ties by ascending host. -/
def mxLess (a b : MX) : Bool :=
  if a.pref ≠ b.pref then decide (a.pref > b.pref) else strLt a.host b.host

/-- The projection loop of `LookupMX` (lines 119-128): one
`(host, preference)` pair per `MXResource`-typed answer, in answer order. -/
def projMX (answerList : List RBody) : List MX :=
  answerList.filterMap fun answer =>
    match answer with
    | .MX mx pref => some { host := mx, pref := pref }
    | _ => none

/-- The weak order induced by the `sort.Slice` comparator: `a` may precede
`b` exactly when the comparator does not demand `b` before `a`. -/
def mxOrder (a b : MX) : Prop := mxLess b a = false

instance : DecidableRel mxOrder := fun a b => by
  unfold mxOrder; infer_instance

/-- `LookupMX` given the outcome of its `lookupResourceListL1` call:
project, fail when empty, then sort with the `mxLess` comparator.
`sort.Slice` guarantees only some permutation ordered by the comparator,
but `mxLess` separates every pair of distinct records, so the sorted
permutation is unique and `insertionSort` computes it. -/
def LookupMX (res : Except Err (List RBody)) : Except Err (List MX) :=
  match res with
  | .error e => .error e
  | .ok answerList =>
    let mxResourceList := projMX answerList
    if mxResourceList.length = 0 then .error .notFound
    else .ok (List.insertionSort mxOrder mxResourceList)

theorem referralRun_eq (hop : Nat → HopOutcome) (depth : Nat) (serverList : List Str) :
    referralRun hop depth serverList =
      if depth > 10 then ([], .error .maxDepth)
      else
        match hop depth with
        | .dialFail m => ([(depth, serverList)], .error (.dialFail m))
        | .exchFail m => ([(depth, serverList)], .error (.exchFail m))
        | .unpackFail m => ([(depth, serverList)], .error (.unpackFail m))
        | .reply answers authorities =>
          if answers.length > 0 then ([(depth, serverList)], .ok answers)
          else
            let nsList := extractNS authorities
            if nsList = [] then ([(depth, serverList)], .error .notFound)
            else
              let rest := referralRun hop (depth + 1) nsList
              ((depth, serverList) :: rest.1, rest.2) := by
  rw [referralRun]

theorem strLt_irrefl (s : Str) : strLt s s = false := by
  induction s with
  | nil => rfl
  | cons x xs ih => simp [strLt, ih]

theorem strLt_trans {a b c : Str} (h1 : strLt a b = true) (h2 : strLt b c = true) :
    strLt a c = true := by
  induction a generalizing b c with
  | nil =>
    cases c with
    | nil => cases b <;> simp [strLt] at h1 h2
    | cons z zs => simp [strLt]
  | cons x xs ih =>
    cases b with
    | nil => simp [strLt] at h1
    | cons y ys =>
      cases c with
      | nil => simp [strLt] at h2
      | cons z zs =>
        simp only [strLt, Bool.or_eq_true, Bool.and_eq_true, decide_eq_true_eq,
          beq_iff_eq] at h1 h2 ⊢
        rcases h1 with h1 | ⟨h1e, h1r⟩
        · rcases h2 with h2 | ⟨h2e, h2r⟩
          · exact Or.inl (lt_trans h1 h2)
          · exact Or.inl (h2e ▸ h1)
        · rcases h2 with h2 | ⟨h2e, h2r⟩
          · exact Or.inl (h1e ▸ h2)
          · exact Or.inr ⟨h1e.trans h2e, ih h1r h2r⟩

theorem strLt_connex {a b : Str} (h1 : strLt a b = false) (h2 : strLt b a = false) :
    a = b := by
  induction a generalizing b with
  | nil =>
    cases b with
    | nil => rfl
    | cons y ys => simp [strLt] at h1
  | cons x xs ih =>
    cases b with
    | nil => simp [strLt] at h2
    | cons y ys =>
      simp only [strLt, Bool.or_eq_false_iff, Bool.and_eq_false_iff,
        decide_eq_false_iff_not, beq_eq_false_iff_ne, ne_eq] at h1 h2
      rcases h1 with ⟨h1l, h1r⟩
      rcases h2 with ⟨h2l, h2r⟩
      have hxy : x = y := le_antisymm (not_lt.mp h2l) (not_lt.mp h1l)
      rcases h1r with h1r | h1r
      · exact absurd hxy h1r
      · rcases h2r with h2r | h2r
        · exact absurd hxy.symm h2r
        · exact hxy ▸ congrArg (x :: ·) (ih h1r h2r)

theorem strNotLt_trans {a b c : Str} (h1 : strLt b a = false) (h2 : strLt c b = false) :
    strLt c a = false := by
  by_contra h3
  rw [Bool.not_eq_false] at h3
  cases hab : strLt a b with
  | true => exact absurd (strLt_trans h3 hab) (by simp [h2])
  | false =>
    have hEq : a = b := strLt_connex hab h1
    rw [← hEq] at h2
    exact absurd h3 (by simp [h2])

theorem mxLess_asymm (a b : MX) (h1 : mxLess a b = true) (h2 : mxLess b a = true) :
    False := by
  unfold mxLess at h1 h2
  by_cases hp : a.pref = b.pref
  · simp [hp] at h1 h2
    exact absurd (strLt_trans h1 h2) (by simp [strLt_irrefl])
  · have hp' : ¬ b.pref = a.pref := fun h => hp h.symm
    simp [hp, hp', decide_eq_true_eq] at h1 h2
    omega

theorem mxLess_eq_false_iff (x y : MX) :
    mxLess x y = false ↔
      x.pref < y.pref ∨ (x.pref = y.pref ∧ strLt x.host y.host = false) := by
  unfold mxLess
  by_cases hp : x.pref = y.pref
  · simp [hp]
  · simp [hp, decide_eq_false_iff_not]
    omega

instance : IsTotal MX mxOrder := by
  refine ⟨fun a b => ?_⟩
  unfold mxOrder
  by_cases h : mxLess b a = false
  · exact Or.inl h
  · refine Or.inr ?_
    by_contra h2
    rw [Bool.not_eq_false] at h h2
    exact mxLess_asymm a b h2 h

instance : IsTrans MX mxOrder := by
  refine ⟨fun a b c h1 h2 => ?_⟩
  unfold mxOrder at h1 h2 ⊢
  rw [mxLess_eq_false_iff] at h1 h2 ⊢
  rcases h1 with h1 | ⟨h1e, h1r⟩
  · rcases h2 with h2 | ⟨h2e, h2r⟩
    · exact Or.inl (by omega)
    · exact Or.inl (by omega)
  · rcases h2 with h2 | ⟨h2e, h2r⟩
    · exact Or.inl (by omega)
    · exact Or.inr ⟨by omega, strNotLt_trans h1r h2r⟩

theorem referralRun_bounds (hop : Nat → HopOutcome) :
    ∀ n depth serverList, 11 - depth ≤ n →
      (∀ p ∈ (referralRun hop depth serverList).1, depth ≤ p.1 ∧ p.1 ≤ 10) ∧
      (referralRun hop depth serverList).1.length ≤ 11 - depth ∧
      (serverList ≠ [] → ∀ p ∈ (referralRun hop depth serverList).1, p.2 ≠ []) := by
  intro n
  induction n with
  | zero =>
    intro depth serverList hn
    rw [referralRun_eq]
    have hd : depth > 10 := by omega
    simp [hd]
  | succ n ih =>
    intro depth serverList hn
    rw [referralRun_eq]
    by_cases hd : depth > 10
    · simp [hd]
    · have hd10 : depth ≤ 10 := by omega
      simp only [hd, if_false]
      cases hhop : hop depth with
      | dialFail m => simp; omega
      | exchFail m => simp; omega
      | unpackFail m => simp; omega
      | reply answers authorities =>
        by_cases hans : answers.length > 0
        · simp [hans]; omega
        · simp only [hans, if_false]
          by_cases hns : extractNS authorities = []
          · simp [hns]; omega
          · simp only [hns, if_false]
            obtain ⟨ihA, ihB, ihC⟩ :=
              ih (depth + 1) (extractNS authorities) (by omega)
            refine ⟨?_, ?_, ?_⟩
            · intro p hp
              rcases List.mem_cons.mp hp with hp | hp
              · subst hp; omega
              · have := ihA p hp; omega
            · simp only [List.length_cons]
              omega
            · intro hSL p hp
              rcases List.mem_cons.mp hp with hp | hp
              · subst hp; exact hSL
              · exact ihC hns p hp

theorem referralRun_selfReferral (hop : Nat → HopOutcome)
    (h : ∀ d, ∃ auth, hop d = HopOutcome.reply [] auth ∧ extractNS auth ≠ []) :
    ∀ n depth serverList, 11 - depth ≤ n →
      (referralRun hop depth serverList).2 = .error .maxDepth ∧
      (referralRun hop depth serverList).1.length = 11 - depth := by
  intro n
  induction n with
  | zero =>
    intro depth serverList hn
    rw [referralRun_eq]
    have hd : depth > 10 := by omega
    simp [hd]
    omega
  | succ n ih =>
    intro depth serverList hn
    rw [referralRun_eq]
    by_cases hd : depth > 10
    · simp [hd]; omega
    · simp only [hd, if_false]
      obtain ⟨auth, hhop, hne⟩ := h depth
      rw [hhop]
      simp only [List.length_nil, gt_iff_lt, Nat.lt_irrefl, if_false, hne, ite_false]
      obtain ⟨ih1, ih2⟩ := ih (depth + 1) (extractNS auth) (by omega)
      refine ⟨ih1, ?_⟩
      simp only [List.length_cons, ih2]
      omega

/-- Claim C1: for every resolution call the referral loop attempts a query
only at depths 0 through 10 inclusive — at most 11 attempts — and a hop
oracle that always returns an empty answer section with a usable referral
makes the loop exhaust the budget and fail with `ErrMaxDepth` after
exactly 11 attempts. -/
theorem C1_referral_depth_budget (hop hopR : Nat → HopOutcome)
    (s sR : List Str)
    (hR : ∀ d, ∃ auth, hopR d = HopOutcome.reply [] auth ∧ extractNS auth ≠ []) :
    (∀ p ∈ (referralRun hop 0 s).1, p.1 ≤ 10) ∧
    (referralRun hop 0 s).1.length ≤ 11 ∧
    (referralRun hopR 0 sR).2 = .error .maxDepth ∧
    (referralRun hopR 0 sR).1.length = 11 := by
  obtain ⟨hA, hB, _⟩ := referralRun_bounds hop 11 0 s (by omega)
  obtain ⟨hC, hD⟩ := referralRun_selfReferral hopR hR 11 0 sR (by omega)
  exact ⟨fun p hp => (hA p hp).2, by simpa using hB, hC, by simpa using hD⟩

theorem C1_witness :
    (referralRun (fun _ => HopOutcome.reply [] [RBody.NS ['a', '.']]) 0
        gRootServers).2 = .error .maxDepth ∧
    (referralRun (fun _ => HopOutcome.reply [] [RBody.NS ['a', '.']]) 0
        gRootServers).1.length = 11 :=
  (C1_referral_depth_budget (fun _ => HopOutcome.reply [] [RBody.NS ['a', '.']])
    (fun _ => HopOutcome.reply [] [RBody.NS ['a', '.']]) gRootServers gRootServers
    (fun _ => ⟨[RBody.NS ['a', '.']], rfl, by decide⟩)).2.2

/-- Claim C2: at every hop whose reply has an empty answer section the next
ServerSet is exactly `extractNS` of the authority section — the NS target
hostnames, each given the default DNS port — and the loop continues with
it; when the authority section holds no NS record the lookup fails with
`ErrNotFound`; and every ServerSet the loop hands to the connection broker,
starting from the root list, is non-empty. -/
theorem C2_referral_serversets (hop : Nat → HopOutcome) (depth : Nat)
    (s : List Str) (authorities : List RBody)
    (hd : depth ≤ 10) (hhop : hop depth = HopOutcome.reply [] authorities) :
    (extractNS authorities = [] →
      (referralRun hop depth s).2 = .error .notFound) ∧
    (extractNS authorities ≠ [] →
      referralRun hop depth s =
        ((depth, s) :: (referralRun hop (depth + 1) (extractNS authorities)).1,
          (referralRun hop (depth + 1) (extractNS authorities)).2)) ∧
    (∀ p ∈ (referralRun hop 0 gRootServers).1, p.2 ≠ []) := by
  have hd' : ¬ depth > 10 := by omega
  refine ⟨?_, ?_, ?_⟩
  · intro hns
    rw [referralRun_eq]
    simp [hd', hhop, hns]
  · intro hns
    rw [referralRun_eq]
    simp [hd', hhop, hns]
  · obtain ⟨_, _, hC⟩ := referralRun_bounds hop 11 0 gRootServers (by omega)
    exact hC (by decide)

theorem C2_witness :
    (referralRun (fun _ => HopOutcome.reply [] []) 0 gRootServers).2
      = .error .notFound :=
  (C2_referral_serversets (fun _ => HopOutcome.reply [] []) 0 gRootServers []
    (by omega) rfl).1 rfl

theorem projGuard_ok_ne_nil {α : Type} {proj sorted l : List α}
    (hlen : sorted.length = proj.length)
    (h : (if proj.length = 0 then (.error .notFound : Except Err (List α))
            else .ok sorted) = .ok l) :
    l ≠ [] := by
  by_cases hz : proj.length = 0
  · rw [if_pos hz] at h
    exact absurd h (by simp)
  · rw [if_neg hz] at h
    have hs : sorted = l := by
      injection h
    subst hs
    intro hnil
    rw [hnil] at hlen
    exact hz hlen.symm

/-- Claim C3: for every answer list, each public lookup operation returns a
non-empty result on success, and an empty projection — answers present but
none of the expected body type — is surfaced as `ErrNotFound`, never as an
empty success. -/
theorem C3_nonempty_success (ans : List RBody) :
    (∀ l, LookupA (.ok ans) = .ok l → l ≠ []) ∧
    (projA ans = [] → LookupA (.ok ans) = .error .notFound) ∧
    (∀ l, LookupSOA (.ok ans) = .ok l → l ≠ []) ∧
    (projSOA ans = [] → LookupSOA (.ok ans) = .error .notFound) ∧
    (∀ l, LookupNS (.ok ans) = .ok l → l ≠ []) ∧
    (projNS ans = [] → LookupNS (.ok ans) = .error .notFound) ∧
    (∀ l, LookupTXT (.ok ans) = .ok l → l ≠ []) ∧
    (projTXT ans = [] → LookupTXT (.ok ans) = .error .notFound) ∧
    (∀ c, LookupCNAME (.ok ans) = .ok c → c ≠ []) ∧
    (firstNonEmptyCNAME ans = [] → LookupCNAME (.ok ans) = .error .notFound) ∧
    (∀ l, LookupMX (.ok ans) = .ok l → l ≠ []) ∧
    (projMX ans = [] → LookupMX (.ok ans) = .error .notFound) := by
  refine ⟨?_, ?_, ?_, ?_, ?_, ?_, ?_, ?_, ?_, ?_, ?_, ?_⟩
  · intro l h
    exact projGuard_ok_ne_nil rfl h
  · intro hp
    simp [LookupA, hp]
  · intro l h
    exact projGuard_ok_ne_nil rfl h
  · intro hp
    simp [LookupSOA, hp]
  · intro l h
    exact projGuard_ok_ne_nil rfl h
  · intro hp
    simp [LookupNS, hp]
  · intro l h
    exact projGuard_ok_ne_nil rfl h
  · intro hp
    simp [LookupTXT, hp]
  · intro c h
    by_cases hz : firstNonEmptyCNAME ans = []
    · simp [LookupCNAME, hz] at h
    · simp only [LookupCNAME, if_neg hz] at h
      injection h with h
      exact h ▸ hz
  · intro hp
    simp [LookupCNAME, hp]
  · intro l h
    exact projGuard_ok_ne_nil
      (List.Perm.length_eq (List.perm_insertionSort mxOrder (projMX ans))) h
  · intro hp
    simp [LookupMX, hp]

theorem C3_witness :
    ([("1.2.3.4").toList] ≠ ([] : List Str)) ∧
    LookupA (.ok ([] : List RBody)) = .error .notFound :=
  ⟨(C3_nonempty_success [RBody.A 1 2 3 4]).1 [("1.2.3.4").toList] (by decide),
   (C3_nonempty_success []).2.1 rfl⟩

/-- Claim C4: `LookupMX` returns one (host, preference) pair per MX-typed
answer record, sorted by descending numeric preference with ties broken by
lexicographically ascending host name; the records
`[(a,10), (b,20), (c,20)]` project to `[(b,20), (c,20), (a,10)]`. -/
theorem C4_mx_ordering (ans : List RBody) (l : List MX)
    (h : LookupMX (.ok ans) = .ok l) :
    l.Perm (projMX ans) ∧
    l.Pairwise (fun a b =>
      b.pref < a.pref ∨ (a.pref = b.pref ∧ strLt b.host a.host = false)) ∧
    LookupMX (.ok [RBody.MX ['a'] 10, RBody.MX ['b'] 20, RBody.MX ['c'] 20])
      = .ok [⟨['b'], 20⟩, ⟨['c'], 20⟩, ⟨['a'], 10⟩] := by
  by_cases hz : (projMX ans).length = 0
  · simp only [LookupMX, if_pos hz] at h
    exact absurd h (by simp)
  · simp only [LookupMX, if_neg hz] at h
    injection h with h
    subst h
    refine ⟨List.perm_insertionSort mxOrder (projMX ans), ?_, by decide⟩
    have hs := List.sorted_insertionSort mxOrder (projMX ans)
    refine hs.imp ?_
    intro a b hab
    have := (mxLess_eq_false_iff b a).mp hab
    rcases this with hlt | ⟨heq, hf⟩
    · exact Or.inl hlt
    · exact Or.inr ⟨heq.symm, hf⟩

theorem C4_witness :
    LookupMX (.ok [RBody.MX ['a'] 10, RBody.MX ['b'] 20, RBody.MX ['c'] 20])
      = .ok [⟨['b'], 20⟩, ⟨['c'], 20⟩, ⟨['a'], 10⟩] :=
  (C4_mx_ordering [RBody.MX ['a'] 10, RBody.MX ['b'] 20, RBody.MX ['c'] 20]
    [⟨['b'], 20⟩, ⟨['c'], 20⟩, ⟨['a'], 10⟩] (by decide)).2.2

theorem firstNonEmptyCNAME_of_allEmpty (ans : List RBody)
    (h : ∀ c, RBody.CNAME c ∈ ans → c = []) :
    firstNonEmptyCNAME ans = [] := by
  induction ans with
  | nil => rfl
  | cons a rest ih =>
    cases a with
    | CNAME c =>
      have hc : c = [] := h c (by simp)
      subst hc
      simpa [firstNonEmptyCNAME] using ih fun c hc => h c (by simp [hc])
    | A b0 b1 b2 b3 => exact ih fun c hc => h c (by simp [hc])
    | NS ns => exact ih fun c hc => h c (by simp [hc])
    | SOA ns => exact ih fun c hc => h c (by simp [hc])
    | TXT t => exact ih fun c hc => h c (by simp [hc])
    | MX m p => exact ih fun c hc => h c (by simp [hc])
    | other => exact ih fun c hc => h c (by simp [hc])

/-- Claim C5: `LookupCNAME` issues its underlying query with the TXT record
type (the reference defect), returns the first non-empty canonical name
with no trailing-dot stripping, and fails with `ErrNotFound` when every
CNAME record's name is empty. -/
theorem C5_cname (ans : List RBody)
    (hAllEmpty : ∀ c, RBody.CNAME c ∈ ans → c = []) :
    lookupCNAMEQueryType = RType.TXT ∧
    LookupCNAME (.ok ans) = .error .notFound ∧
    LookupCNAME (.ok [RBody.CNAME [], RBody.CNAME ("alias.example.com.").toList])
      = .ok (("alias.example.com.").toList) ∧
    LookupCNAME (.ok [RBody.CNAME []]) = .error .notFound := by
  refine ⟨rfl, ?_, by decide, by decide⟩
  have hz := firstNonEmptyCNAME_of_allEmpty ans hAllEmpty
  simp [LookupCNAME, hz]

theorem C5_witness :
    LookupCNAME (.ok [RBody.CNAME []]) = .error .notFound :=
  (C5_cname [RBody.CNAME []]
    (fun c hc => by
      simp only [List.mem_singleton] at hc
      injection hc)).2.1

/-- Claim C6: the transport frames a payload as its 2-byte unsigned
big-endian length followed by the payload in one send; the reader takes 2
bytes as the reply length and then exactly that many bytes; framing then
unframing any payload of length at most 65535 is the identity; and any
short read fails. -/
theorem C6_framing_roundtrip (send : List Nat) (h : send.length ≤ 65535) :
    framePacket send = some (putUint16BE send.length ++ send) ∧
    (framePacket send).bind readFramed = some send ∧
    (∀ s : List Nat, s.length < 2 → readFramed s = none) ∧
    (∀ b0 b1 : Nat, ∀ rest : List Nat, rest.length < readUint16BE b0 b1 →
      readFramed (b0 :: b1 :: rest) = none) := by
  have hu : uint16Of send.length = send.length := by
    unfold uint16Of
    exact Nat.mod_eq_of_lt (by omega)
  have hframe : framePacket send = some (putUint16BE send.length ++ send) := by
    unfold framePacket
    rw [if_pos h, hu]
  have hn : readUint16BE (send.length / 256 % 256) (send.length % 256)
      = send.length := by
    unfold readUint16BE
    omega
  refine ⟨hframe, ?_, ?_, ?_⟩
  · rw [hframe]
    show readFramed
      (send.length / 256 % 256 :: send.length % 256 :: send) = some send
    simp only [readFramed, hn]
    rw [if_pos (le_refl _), List.take_length]
  · intro s hs
    cases s with
    | nil => rfl
    | cons b0 t =>
      cases t with
      | nil => rfl
      | cons b1 rest =>
        exfalso
        simp only [List.length_cons] at hs
        omega
  · intro b0 b1 rest hlt
    simp only [readFramed]
    rw [if_neg (by omega)]

theorem C6_witness : (framePacket [1, 2, 3]).bind readFramed = some [1, 2, 3] :=
  (C6_framing_roundtrip [1, 2, 3] (by decide)).2.1

/-- Claim C7: a request payload longer than 65535 bytes cannot be framed
as a well-formed message — the framing step is defined only under the
precondition that the payload fits the 2-byte length prefix. -/
theorem C7_oversize_reject (send : List Nat) (h : send.length > 65535) :
    framePacket send = none := by
  unfold framePacket
  rw [if_neg (by omega)]

theorem C7_witness : framePacket (List.replicate 65536 0) = none :=
  C7_oversize_reject (List.replicate 65536 0)
    (by rw [List.length_replicate]; omega)

theorem dialFold_allFail (completed : List DialOutcome)
    (h : ∀ o ∈ completed, ∃ m, o = DialOutcome.fail m) :
    ∀ acc : List Str,
      completed.foldl dialStep (none, acc) = (none, acc ++ dialErrors completed) := by
  induction completed with
  | nil =>
    intro acc
    simp [dialErrors]
  | cons o os ih =>
    intro acc
    obtain ⟨m, rfl⟩ := h o (by simp)
    simp only [List.foldl_cons, dialStep]
    rw [ih (fun o ho => h o (by simp [ho])) (acc ++ [m])]
    simp [dialErrors, List.filterMap_cons]

/-- Claim C8: `gDialRemote` applied to an empty candidate set fails
immediately with the invalid-input error without spawning any dial task;
on a non-empty set where every dial attempt fails, it returns the first
recorded dial error. -/
theorem C8_broker (targetAddrList : List Str) (completed : List DialOutcome)
    (e : Str) (errs : List Str)
    (hne : targetAddrList ≠ [])
    (hAllFail : ∀ o ∈ completed, ∃ m, o = DialOutcome.fail m)
    (hErrs : dialErrors completed = e :: errs) :
    (gDialRemote targetAddrList completed).result = .error e ∧
    (∀ c : List DialOutcome,
      (gDialRemote [] c).spawned = 0 ∧
      (gDialRemote [] c).result = .error dialEmptyErrMsg) := by
  constructor
  · unfold gDialRemote
    rw [if_neg (by simpa using hne)]
    rw [dialFold_allFail completed hAllFail []]
    simp [hErrs]
  · intro c
    exact ⟨rfl, rfl⟩

theorem C8_witness :
    (gDialRemote [[':']] [DialOutcome.fail ['e']]).result = .error ['e'] ∧
    (gDialRemote [] []).spawned = 0 :=
  ⟨(C8_broker [[':']] [DialOutcome.fail ['e']] ['e'] []
      (by decide)
      (fun o ho => ⟨['e'], by simpa using ho⟩)
      rfl).1,
   ((C8_broker [[':']] [DialOutcome.fail ['e']] ['e'] []
      (by decide)
      (fun o ho => ⟨['e'], by simpa using ho⟩)
      rfl).2 []).1⟩

/-- Claim C9: the dotted and undotted spellings of a domain produce the
same query message — every domain is coerced to the trailing-dot absolute
form before the query is built — so both spellings yield the same encoded
query. -/
theorem C9_normalization (domain : Str) (typeC : RType) (id : Nat)
    (h : hasSuffix domain ['.'] = false) :
    normalizeDomain domain = domain ++ ['.'] ∧
    buildQuery domain typeC id = buildQuery (domain ++ ['.']) typeC id := by
  have hsuf : hasSuffix (domain ++ ['.']) ['.'] = true := by
    unfold hasSuffix
    have hlen : (domain ++ ['.']).length = domain.length + 1 := by simp
    rw [hlen]
    have hsub : domain.length + 1 - List.length ['.'] = domain.length := by simp
    rw [hsub, List.drop_left]
    simp
  have h1 : normalizeDomain domain = domain ++ ['.'] := by
    unfold normalizeDomain
    rw [h]
    rfl
  have h2 : normalizeDomain (domain ++ ['.']) = domain ++ ['.'] := by
    unfold normalizeDomain
    rw [hsuf]
    rfl
  exact ⟨h1, by unfold buildQuery; rw [h1, h2]⟩

theorem C9_witness :
    buildQuery ("example.com").toList RType.A 1
      = buildQuery (("example.com").toList ++ ['.']) RType.A 1 :=
  (C9_normalization ("example.com").toList RType.A 1 (by decide)).2

/-- Claim C10: the query identifier is the low 16 bits of the
process-global 32-bit counter, which starts at zero and is atomically
incremented before use: the `k`-th query carries `k mod 2^16`, the first
query carries identifier 1, and identifiers repeat with period 65536. -/
theorem C10_lookup_id :
    counterAfter 0 = 0 ∧
    (∀ k, counterAfter k = k % 2 ^ 32) ∧
    (∀ k, queryIdOf k = k % 2 ^ 16) ∧
    queryIdOf 1 = 1 ∧
    (∀ k, queryIdOf (k + 2 ^ 16) = queryIdOf k) := by
  have hc : ∀ k, counterAfter k = k % 2 ^ 32 := by
    intro k
    induction k with
    | zero => simp [counterAfter, gLookupIdInit]
    | succ k ih =>
      show atomicAddUint32 (counterAfter k) = (k + 1) % 2 ^ 32
      rw [ih]
      unfold atomicAddUint32
      rw [Nat.mod_add_mod]
  have hq : ∀ k, queryIdOf k = k % 2 ^ 16 := by
    intro k
    unfold queryIdOf uint16Of
    rw [hc k]
    exact Nat.mod_mod_of_dvd k (by norm_num)
  refine ⟨by simp [counterAfter, gLookupIdInit], hc, hq, ?_, ?_⟩
  · rw [hq 1]
    norm_num
  · intro k
    rw [hq, hq, Nat.add_mod_right]

end Nslookup
